import Mathlib

/-!
Verification of the `Player` capability contract of `src/cc/player.h`
(namespace `minigo`).  The header declares an abstract interface only:

  class Player {
    virtual ~Player() = 0;
    virtual void NewGame() = 0;
    virtual Coord SuggestMove() = 0;
    virtual bool PlayMove(Coord c) = 0;
    virtual bool UndoMove() = 0;
    virtual const std::string& name() const = 0;
  };

No concrete implementation is present in the repository sources, so the
behavioral contract of a conforming implementation is modelled here from
the specification's words and the contract properties are proved of that
model.
-/

namespace Minigo

/-- Modelled from the spec: the repository contains only the abstract
`Player` interface declaration; a conforming implementation's own game
logic is absent.  `PlayerImpl` packages that implementation-owned logic:
an initial position `start`, a legality predicate `legal`, a move
application function `applyMove`, a move-suggestion function `suggest`,
and the implementation's identifying name `playerName`.  `σ` is the
implementation's position type and `Coord` the opaque move type of
`cc/coord.h` (copyable, equality-comparable, otherwise unspecified). -/
structure PlayerImpl (σ : Type) (Coord : Type) where
  start : σ
  legal : σ → Coord → Bool
  applyMove : σ → Coord → σ
  suggest : σ → Coord
  playerName : String

/-- Modelled from the spec: the observable state owned by a conforming
`Player` instance — its current position `cur`, the move history as the
stack of positions that held before each applied move (`history`), and
the instance's name `pname` (immutable for the object's lifetime). -/
structure PlayerState (σ : Type) where
  cur : σ
  history : List σ
  pname : String
deriving DecidableEq

/-- Modelled from the spec: `Player::NewGame` resets the implementation's
internal game state to the start of a new game, discarding any prior
in-progress game state; the instance's identity is untouched. -/
def NewGame {σ Coord : Type} (impl : PlayerImpl σ Coord)
    (s : PlayerState σ) : PlayerState σ :=
  { cur := impl.start, history := [], pname := s.pname }

/-- Modelled from the spec: `Player::PlayMove(c)` attempts to apply `c`
as the next move.  On a legal move it returns true and mutates the
internal game state (advances the move history, updates the position);
on an illegal or inapplicable move it returns false and leaves the
state unchanged. -/
def PlayMove {σ Coord : Type} (impl : PlayerImpl σ Coord)
    (s : PlayerState σ) (c : Coord) : Bool × PlayerState σ :=
  if impl.legal s.cur c then
    (true, { cur := impl.applyMove s.cur c, history := s.cur :: s.history,
             pname := s.pname })
  else
    (false, s)

/-- Modelled from the spec: `Player::UndoMove` attempts to roll back the
most recently applied move.  It returns true and restores the state that
held immediately before the last `PlayMove` when a move exists to undo,
and returns false, leaving the state unchanged, when the history is
empty. -/
def UndoMove {σ : Type} (s : PlayerState σ) : Bool × PlayerState σ :=
  match s.history with
  | [] => (false, s)
  | prev :: rest => (true, { cur := prev, history := rest, pname := s.pname })

/-- Modelled from the spec: `Player::SuggestMove` returns the `Coord` the
implementation chooses to play next given its current internal game
state, and must not mutate the authoritative game state as a side
effect of suggesting. -/
def SuggestMove {σ Coord : Type} (impl : PlayerImpl σ Coord)
    (s : PlayerState σ) : Coord × PlayerState σ :=
  (impl.suggest s.cur, s)

/-- Modelled from the spec: `Player::name` returns the implementation's
identifying name, a pure accessor valid for the object's lifetime. -/
def name {σ : Type} (s : PlayerState σ) : String := s.pname

/-- Modelled from the spec: the move-history depth of the state — the
number of applied moves that remain undoable. -/
def depth {σ : Type} (s : PlayerState σ) : Nat := s.history.length

/-- A step of a driving sequence: either `PlayMove` with some coordinate
or `UndoMove`. -/
inductive Op (Coord : Type) where
  | play (c : Coord)
  | undo

/-- Run a sequence of `PlayMove`/`UndoMove` steps from a state,
discarding the returned success flags. -/
def runOps {σ Coord : Type} (impl : PlayerImpl σ Coord) :
    PlayerState σ → List (Op Coord) → PlayerState σ
  | s, [] => s
  | s, Op.play c :: rest => runOps impl (PlayMove impl s c).2 rest
  | s, Op.undo :: rest => runOps impl (UndoMove s).2 rest

/-- A tiny concrete conforming implementation used to exercise the
contract on concrete inputs: positions are lists of occupied cells,
a move is legal iff its cell is unoccupied. -/
def toyImpl : PlayerImpl (List Nat) Nat where
  start := []
  legal := fun board c => !(board.contains c)
  applyMove := fun board c => c :: board
  suggest := fun _ => 0
  playerName := "toy"

/-- The toy player's state right after `NewGame`. -/
def toyS0 : PlayerState (List Nat) :=
  NewGame toyImpl { cur := [], history := [], pname := "toy" }

end Minigo

namespace Minigo

/-- Claim C1: for every `Coord` `c` legal in the current state,
`PlayMove(c)` returns true, a subsequent `UndoMove()` returns true, and
the resulting state equals the state that held immediately before the
`PlayMove(c)` call. -/
theorem playMove_undoMove_roundtrip {σ Coord : Type}
    (impl : PlayerImpl σ Coord) (s : PlayerState σ) (c : Coord)
    (h : impl.legal s.cur c = true) :
    (PlayMove impl s c).1 = true ∧
    (UndoMove (PlayMove impl s c).2).1 = true ∧
    (UndoMove (PlayMove impl s c).2).2 = s := by
  simp [PlayMove, UndoMove, h]

/-- Witness for C1: in the toy player's fresh state, the move at cell 3
is legal, plays successfully, and undoing restores the fresh state. -/
theorem playMove_undoMove_roundtrip_witness :
    (PlayMove toyImpl toyS0 3).1 = true ∧
    (UndoMove (PlayMove toyImpl toyS0 3).2).1 = true ∧
    (UndoMove (PlayMove toyImpl toyS0 3).2).2 = toyS0 :=
  playMove_undoMove_roundtrip toyImpl toyS0 3 (by decide)

/-- Claim C2: for every `Coord` `c` illegal in the current state,
`PlayMove(c)` returns false and leaves the state unchanged, so calling
it twice has the same observable effect as calling it once. -/
theorem playMove_rejection_atomic {σ Coord : Type}
    (impl : PlayerImpl σ Coord) (s : PlayerState σ) (c : Coord)
    (h : impl.legal s.cur c = false) :
    (PlayMove impl s c).1 = false ∧
    (PlayMove impl s c).2 = s ∧
    PlayMove impl (PlayMove impl s c).2 c = PlayMove impl s c := by
  simp [PlayMove, h]

/-- Witness for C2: after playing cell 3, playing cell 3 again is
illegal, is rejected without changing the state, and rejecting twice
equals rejecting once. -/
theorem playMove_rejection_atomic_witness :
    (PlayMove toyImpl (PlayMove toyImpl toyS0 3).2 3).1 = false ∧
    (PlayMove toyImpl (PlayMove toyImpl toyS0 3).2 3).2 =
      (PlayMove toyImpl toyS0 3).2 ∧
    PlayMove toyImpl (PlayMove toyImpl (PlayMove toyImpl toyS0 3).2 3).2 3 =
      PlayMove toyImpl (PlayMove toyImpl toyS0 3).2 3 :=
  playMove_rejection_atomic toyImpl (PlayMove toyImpl toyS0 3).2 3 (by decide)

/-- Claim C3: immediately after `NewGame()`, `UndoMove()` returns false,
because no move history exists yet. -/
theorem undoMove_after_newGame {σ Coord : Type}
    (impl : PlayerImpl σ Coord) (s : PlayerState σ) :
    (UndoMove (NewGame impl s)).1 = false := by
  simp [NewGame, UndoMove]

/-- Claim C4: `UndoMove()` returns true iff at least one applied move
remains in the history; on success it restores the state that held
immediately before the most recent successful `PlayMove`, and each
successful `UndoMove` pops exactly one frame of the history, so repeated
calls walk back through the full available history. -/
theorem undoMove_semantics {σ Coord : Type}
    (impl : PlayerImpl σ Coord) (s : PlayerState σ) :
    ((UndoMove s).1 = true ↔ s.history ≠ []) ∧
    (∀ c : Coord, (PlayMove impl s c).1 = true →
      (UndoMove (PlayMove impl s c).2).2 = s) ∧
    ((UndoMove s).1 = true → (UndoMove s).2.history = s.history.tail) := by
  refine ⟨?_, ?_, ?_⟩
  · unfold UndoMove
    cases h : s.history <;> simp
  · intro c hc
    unfold PlayMove at hc ⊢
    by_cases h : impl.legal s.cur c = true
    · simp [h, UndoMove]
    · simp [h] at hc
  · unfold UndoMove
    cases h : s.history <;> simp

/-- Witness for C4: after the toy player plays cell 3, undo succeeds,
restores the fresh state, and pops one history frame. -/
theorem undoMove_semantics_witness :
    ((UndoMove (PlayMove toyImpl toyS0 3).2).1 = true ↔
      (PlayMove toyImpl toyS0 3).2.history ≠ []) ∧
    (UndoMove (PlayMove toyImpl toyS0 3).2).2 = toyS0 ∧
    (UndoMove (PlayMove toyImpl toyS0 3).2).2.history =
      (PlayMove toyImpl toyS0 3).2.history.tail := by
  have h0 := undoMove_semantics toyImpl toyS0
  have h1 := undoMove_semantics toyImpl (PlayMove toyImpl toyS0 3).2
  exact ⟨h1.1, h0.2.1 3 (by decide), h1.2.2 (h1.1.2 (by decide))⟩

/-- Claim C5: `name()` returns the same value across repeated calls and
is unaffected by any interleaved `NewGame`, `PlayMove`, `UndoMove` or
`SuggestMove` call; it is a pure accessor with no side effects. -/
theorem name_immutable {σ Coord : Type}
    (impl : PlayerImpl σ Coord) (s : PlayerState σ) (c : Coord) :
    name (NewGame impl s) = name s ∧
    name (PlayMove impl s c).2 = name s ∧
    name (UndoMove s).2 = name s ∧
    name (SuggestMove impl s).2 = name s := by
  refine ⟨rfl, ?_, ?_, rfl⟩
  · unfold PlayMove name
    by_cases h : impl.legal s.cur c = true <;> simp [h]
  · unfold UndoMove name
    cases h : s.history <;> simp

/-- Claim C6: `SuggestMove()` returns a `Coord` but does not mutate the
authoritative game state: the state after `SuggestMove()` equals the
state before it. -/
theorem suggestMove_frame {σ Coord : Type}
    (impl : PlayerImpl σ Coord) (s : PlayerState σ) :
    (SuggestMove impl s).1 = impl.suggest s.cur ∧
    (SuggestMove impl s).2 = s :=
  ⟨rfl, rfl⟩

/-- Claim C7: `NewGame()` resets the internal game state to the start of
a new game, discarding any prior in-progress state: the post-`NewGame`
position and history are the initial ones regardless of the prior state,
and the player accepts any move legal in the initial position. -/
theorem newGame_resets {σ Coord : Type}
    (impl : PlayerImpl σ Coord) (s t : PlayerState σ) :
    (NewGame impl s).cur = impl.start ∧
    (NewGame impl s).history = [] ∧
    (NewGame impl s).cur = (NewGame impl t).cur ∧
    (NewGame impl s).history = (NewGame impl t).history ∧
    (∀ c : Coord, impl.legal impl.start c = true →
      (PlayMove impl (NewGame impl s) c).1 = true) := by
  refine ⟨rfl, rfl, rfl, rfl, ?_⟩
  intro c hc
  simp [NewGame, PlayMove, hc]

/-- Witness for C7: resetting the toy player after a played move yields
the initial position and empty history, agreeing with a reset from a
different prior state, and the legal move at cell 5 is then accepted. -/
theorem newGame_resets_witness :
    (NewGame toyImpl (PlayMove toyImpl toyS0 3).2).cur = toyImpl.start ∧
    (NewGame toyImpl (PlayMove toyImpl toyS0 3).2).history = [] ∧
    (NewGame toyImpl (PlayMove toyImpl toyS0 3).2).cur =
      (NewGame toyImpl toyS0).cur ∧
    (NewGame toyImpl (PlayMove toyImpl toyS0 3).2).history =
      (NewGame toyImpl toyS0).history ∧
    (PlayMove toyImpl (NewGame toyImpl (PlayMove toyImpl toyS0 3).2) 5).1 =
      true := by
  have h := newGame_resets toyImpl (PlayMove toyImpl toyS0 3).2 toyS0
  exact ⟨h.1, h.2.1, h.2.2.1, h.2.2.2.1, h.2.2.2.2 5 (by decide)⟩

/-- Claim C8: in every state reachable after `NewGame()` by any sequence
of `PlayMove`/`UndoMove` calls the move-history depth is a non-negative
integer; each successful `PlayMove` increments the depth by one, each
successful `UndoMove` decrements it by one, and no `UndoMove` succeeds
at depth 0. -/
theorem depth_invariant {σ Coord : Type}
    (impl : PlayerImpl σ Coord) (s : PlayerState σ) (c : Coord)
    (ops : List (Op Coord)) :
    (0 : Int) ≤ (depth (runOps impl (NewGame impl s) ops) : Int) ∧
    ((PlayMove impl s c).1 = true →
      depth (PlayMove impl s c).2 = depth s + 1) ∧
    ((UndoMove s).1 = true → depth (UndoMove s).2 + 1 = depth s) ∧
    (depth s = 0 → (UndoMove s).1 = false) := by
  refine ⟨Int.natCast_nonneg _, ?_, ?_, ?_⟩
  · intro hp
    unfold PlayMove at hp ⊢
    by_cases h : impl.legal s.cur c = true
    · simp [h, depth]
    · simp [h] at hp
  · intro hu
    unfold UndoMove at hu ⊢
    cases h : s.history with
    | nil => simp [h] at hu
    | cons prev rest => simp [h, depth]
  · intro hd
    unfold depth at hd
    unfold UndoMove
    cases h : s.history with
    | nil => simp [h]
    | cons prev rest => simp [h] at hd

/-- Witness for C8: for the toy player, depth stays non-negative along a
concrete play/undo/undo run, playing cell 3 raises the depth from 0 to
1, undoing it lowers the depth back, and undo fails in the depth-0 fresh
state. -/
theorem depth_invariant_witness :
    (0 : Int) ≤
      (depth (runOps toyImpl (NewGame toyImpl toyS0)
        [Op.play 3, Op.undo, Op.undo]) : Int) ∧
    depth (PlayMove toyImpl toyS0 3).2 = depth toyS0 + 1 ∧
    depth (UndoMove (PlayMove toyImpl toyS0 3).2).2 + 1 =
      depth (PlayMove toyImpl toyS0 3).2 ∧
    (UndoMove toyS0).1 = false := by
  have h := depth_invariant toyImpl toyS0 3 [Op.play 3, Op.undo, Op.undo]
  have h2 := depth_invariant toyImpl (PlayMove toyImpl toyS0 3).2 3
    ([] : List (Op Nat))
  exact ⟨h.1, h.2.1 (by decide), h2.2.2.1 (by decide),
    h.2.2.2 (by decide)⟩

end Minigo
